import Mathlib

/-!
# Singly-linked list container (`linked_list.c`)

A shallow embedding of `src/linked_list.c` and proofs of its contract.

## Modelling conventions

* A `struct node *` that owns its chain is a value of `node_ptr`: either `NULL`
  or a node with its `data` and the (owned) chain hanging off `next`.  The
  spec's List invariant (following `next` from `head` terminates, every node
  has one owner) is what makes this representation exact.
* A non-owning `struct node *` local that walks a chain (`current`) is the
  pair of the sub-chain it points at (so `current == NULL` is a test on that
  value, `current->next` a projection) and its depth below `head`; a store
  through it, `current->next = x`, is `store_next head depth x`.
* `size_t` is a 64-bit unsigned integer: a `Nat` with `% 2 ^ 64` at every
  increment whose value is not already bounded by another `size_t`.
* `unsigned int data` is only stored and compared for equality, so it is a
  `Nat`.
* The two `static` function pointers and the history of calls made through
  them form the `process` state, threaded through every operation that calls
  `malloc_fptr` or `free_fptr`.
* An operation of C type `bool f(struct linked_list * ll, ...)` that mutates
  `*ll` in place returns a `result`: the C return value, the state of `*ll`
  afterwards, and the process state afterwards.
-/

namespace Level1

/-! ## Data model -/

/-- Largest value of `size_t` (`<stdint.h>`), all 64 bits set. -/
def SIZE_MAX : Nat := 2 ^ 64 - 1

/-- Modelled from the spec: `struct node` of the missing header `linked_list.h`
(spec section 3, Node: a data value plus an exclusive-ownership link to the
next node).  A value of this type is a `struct node *` together with the chain
it owns. -/
inductive node_ptr where
  | NULL : node_ptr
  | node (data : Nat) (next : node_ptr) : node_ptr
  deriving DecidableEq, Repr

/-- Modelled from the spec: `struct linked_list` of the missing header
`linked_list.h` (spec section 3, List: an owning-or-absent reference to the
head node).  A `struct linked_list *` argument is an `Option linked_list`,
`none` being the null pointer. -/
structure linked_list where
  head : node_ptr
  deriving DecidableEq, Repr

/-- Modelled from the spec: `struct iterator` of the missing header
`linked_list.h` (spec section 3, Iterator), with the four fields the source
assigns: `ll`, `current_node`, `current_index`, `data`.  The two references are
non-owning: `ll` is the list as it was when the iterator was made and
`current_node` the sub-chain starting at the current node. -/
structure iterator where
  ll : Option linked_list
  current_node : node_ptr
  current_index : Nat
  data : Nat
  deriving DecidableEq, Repr

/-- An allocate capability (`void * (*)(size_t)`), seen from the container: its
argument is the number of calls made through `malloc_fptr` before this one, its
value tells whether this call returns memory (`true`) or `NULL` (`false`).
Every behaviour of a stateful allocator is such a function. -/
abbrev malloc_fn := Nat → Bool

/-- A deallocate capability (`void (*)(void*)`); it returns nothing, and its
calls are recorded in `process.freed`. -/
abbrev free_fn := Unit

/-- What a call of `free_fptr` was given: a node (recorded by its data), a list
header, or an iterator. -/
inductive freed_object where
  | node (data : Nat) : freed_object
  | linked_list : freed_object
  | iterator : freed_object
  deriving DecidableEq, Repr

/-- Process-wide state: the two `static` function pointers of lines 8-9
(`none` is `NULL`), the number of calls made through `malloc_fptr`, and the
arguments of the calls made through `free_fptr`, oldest first. -/
structure process where
  malloc_fptr : Option malloc_fn
  free_fptr : Option free_fn
  malloc_calls : Nat
  freed : List freed_object

/-- Outcome of an operation on a list: the C return value, the list behind the
`ll` argument afterwards (`none` when the argument was `NULL` or the header was
released), and the process state afterwards. -/
structure result (α : Type) where
  ret : α
  ll : Option linked_list
  proc : process

/-- State at process start: nothing registered, no calls made. -/
def process_start : process :=
  ⟨none, none, 0, []⟩

/-- One call `m(size)` through `malloc_fptr`: whether memory came back, and the
process state with the call counted. -/
def call_malloc (p : process) (m : malloc_fn) : Bool × process :=
  (m p.malloc_calls, ⟨p.malloc_fptr, p.free_fptr, p.malloc_calls + 1, p.freed⟩)

/-- One call `free_fptr(x)`. -/
def call_free (p : process) (x : freed_object) : process :=
  ⟨p.malloc_fptr, p.free_fptr, p.malloc_calls, p.freed ++ [x]⟩

/-! ## Reading a chain -/

/-- The element sequence of a chain: the `data` fields met following `next`
from the given node. -/
def elements : node_ptr → List Nat
  | .NULL => []
  | .node data next => data :: elements next

/-- The pointer reached from `c` by following `next` `k` times (`NULL` once the
chain has ended). -/
def sub_chain : node_ptr → Nat → node_ptr
  | .NULL, _ => .NULL
  | .node data next, 0 => .node data next
  | .node _ next, k + 1 => sub_chain next k

/-- The chain from `c` after the store `q->next = v`, where `q` is the node
`depth` links below `c`. -/
def store_next : node_ptr → Nat → node_ptr → node_ptr
  | .NULL, _, _ => .NULL
  | .node data _, 0, v => .node data v
  | .node data next, k + 1, v => .node data (store_next next k v)

/-- A list whose nodes can all exist at once in a 64-bit address space: every
node occupies storage of its own, so a chain has fewer than `SIZE_MAX` nodes. -/
def addressable (l : linked_list) : Prop :=
  (elements l.head).length < SIZE_MAX

instance (l : linked_list) : Decidable (addressable l) :=
  inferInstanceAs (Decidable ((elements l.head).length < SIZE_MAX))

/-! ## Allocator binding (lines 11-27) -/

/-- `linked_list_register_malloc`, lines 12-18. -/
def linked_list_register_malloc (p : process) (malloc : Option malloc_fn) : Bool × process :=
  match malloc with
  | none => (false, p)
  | some m => (true, ⟨some m, p.free_fptr, p.malloc_calls, p.freed⟩)

/-- `linked_list_register_free`, lines 21-27. -/
def linked_list_register_free (p : process) (free : Option free_fn) : Bool × process :=
  match free with
  | none => (false, p)
  | some f => (true, ⟨p.malloc_fptr, some f, p.malloc_calls, p.freed⟩)

/-! ## List operations -/

/-- `linked_list_create`, lines 30-42.  `ret` and `ll` both hold the returned
pointer. -/
def linked_list_create (p : process) : result (Option linked_list) :=
  match p.malloc_fptr with
  | none => ⟨none, none, p⟩
  | some m =>
    match call_malloc p m with
    | (false, p1) => ⟨none, none, p1⟩
    | (true, p1) => ⟨some ⟨.NULL⟩, some ⟨.NULL⟩, p1⟩

/-- The loop of lines 51-55: release every node, reading `next` first. -/
def delete_loop : node_ptr → process → process
  | .NULL, p => p
  | .node data next, p => delete_loop next (call_free p (.node data))

/-- `linked_list_delete`, lines 45-59. -/
def linked_list_delete (p : process) (ll : Option linked_list) : result Bool :=
  match ll, p.free_fptr with
  | some l, some _ => ⟨true, none, call_free (delete_loop l.head p) .linked_list⟩
  | _, _ => ⟨false, ll, p⟩

/-- The loop of lines 69-72, from `current` with the running `size`. -/
def size_loop : node_ptr → Nat → Nat
  | .NULL, size => size
  | .node _ next, size => size_loop next ((size + 1) % 2 ^ 64)

/-- `linked_list_size`, lines 62-75. -/
def linked_list_size (ll : Option linked_list) : Nat :=
  match ll with
  | none => SIZE_MAX
  | some l => size_loop l.head 0

/-- The loop of lines 95-97, `while (current->next != NULL) current =
current->next;`, from a `current` at the given depth: the depth of the node it
stops at.  (`current` is never `NULL` here: the loop is entered with the
non-null head.) -/
def tail_loop : node_ptr → Nat → Nat
  | .NULL, depth => depth
  | .node _ .NULL, depth => depth
  | .node _ (.node d n), depth => tail_loop (.node d n) (depth + 1)

/-- `linked_list_insert_end`, lines 78-102. -/
def linked_list_insert_end (p : process) (ll : Option linked_list) (data : Nat) : result Bool :=
  match ll, p.malloc_fptr with
  | some l, some m =>
    match call_malloc p m with
    | (false, p1) => ⟨false, some l, p1⟩
    | (true, p1) =>
      match l.head with
      | .NULL => ⟨true, some ⟨.node data .NULL⟩, p1⟩
      | .node d n =>
        ⟨true, some ⟨store_next l.head (tail_loop (.node d n) 0) (.node data .NULL)⟩, p1⟩
  | _, _ => ⟨false, ll, p⟩

/-- `linked_list_insert_front`, lines 105-120. -/
def linked_list_insert_front (p : process) (ll : Option linked_list) (data : Nat) : result Bool :=
  match ll, p.malloc_fptr with
  | some l, some m =>
    match call_malloc p m with
    | (false, p1) => ⟨false, some l, p1⟩
    | (true, p1) => ⟨true, some ⟨.node data l.head⟩, p1⟩
  | _, _ => ⟨false, ll, p⟩

/-- The loop `for (i; i < bound && current != NULL; i++) current =
current->next;` of lines 135-137 and 192-194, and, with `current_index` for
`i`, the loop of lines 218-221: the final `current` and `i`.  The counter stays
at most `bound`, itself a `size_t`, so `i++` never wraps. -/
def seek_loop (bound : Nat) : node_ptr → Nat → node_ptr × Nat
  | .NULL, i => (.NULL, i)
  | .node data next, i =>
    if i < bound then seek_loop bound next (i + 1) else (.node data next, i)

/-- `linked_list_insert`, lines 123-154. -/
def linked_list_insert (p : process) (ll : Option linked_list) (index : Nat) (data : Nat) :
    result Bool :=
  match ll, p.malloc_fptr with
  | some l, some m =>
    if index = 0 then linked_list_insert_front p ll data
    else
      match seek_loop (index - 1) l.head 0 with
      | (.NULL, _) => ⟨false, some l, p⟩
      | (.node _ next, i) =>
        match call_malloc p m with
        | (false, p1) => ⟨false, some l, p1⟩
        | (true, p1) => ⟨true, some ⟨store_next l.head i (.node data next)⟩, p1⟩
  | _, _ => ⟨false, ll, p⟩

/-- The loop of lines 165-171, from `current` with the running `index`; falling
out of the loop returns `SIZE_MAX` (line 173). -/
def find_loop (data : Nat) : node_ptr → Nat → Nat
  | .NULL, _ => SIZE_MAX
  | .node d next, index =>
    if d = data then index else find_loop data next ((index + 1) % 2 ^ 64)

/-- `linked_list_find`, lines 157-174. -/
def linked_list_find (ll : Option linked_list) (data : Nat) : Nat :=
  match ll with
  | none => SIZE_MAX
  | some l => find_loop data l.head 0

/-- `linked_list_remove`, lines 177-206. -/
def linked_list_remove (p : process) (ll : Option linked_list) (index : Nat) : result Bool :=
  match ll, p.free_fptr with
  | some l, some _ =>
    match l.head with
    | .NULL => ⟨false, some l, p⟩
    | .node d n =>
      if index = 0 then ⟨true, some ⟨n⟩, call_free p (.node d)⟩
      else
        match seek_loop (index - 1) l.head 0 with
        | (.NULL, _) => ⟨false, some l, p⟩
        | (.node _ .NULL, _) => ⟨false, some l, p⟩
        | (.node _ (.node d2 n2), i) =>
          ⟨true, some ⟨store_next l.head i n2⟩, call_free p (.node d2)⟩
  | _, _ => ⟨false, ll, p⟩

/-! ## Iterator operations -/

/-- `linked_list_create_iterator`, lines 209-239.  `ret` is the returned
iterator pointer, `none` for `NULL`. -/
def linked_list_create_iterator (p : process) (ll : Option linked_list) (index : Nat) :
    result (Option iterator) :=
  match ll, p.malloc_fptr with
  | some l, some m =>
    match seek_loop index l.head 0 with
    | (.NULL, _) => ⟨none, some l, p⟩
    | (.node d n, _) =>
      match call_malloc p m with
      | (false, p1) => ⟨none, some l, p1⟩
      | (true, p1) => ⟨some ⟨some l, .node d n, index, d⟩, some l, p1⟩
  | _, _ => ⟨none, ll, p⟩

/-- `linked_list_delete_iterator`, lines 242-249: the return value and the
process state afterwards. -/
def linked_list_delete_iterator (p : process) (iter : Option iterator) : Bool × process :=
  match iter, p.free_fptr with
  | some _, some _ => (true, call_free p .iterator)
  | _, _ => (false, p)

/-- `linked_list_iterate`, lines 252-266: the return value and the iterator
behind `iter` afterwards. -/
def linked_list_iterate (iter : Option iterator) : Bool × Option iterator :=
  match iter with
  | none => (false, none)
  | some it =>
    match it.current_node with
    | .NULL => (false, some it)
    | .node _ .NULL => (false, some ⟨it.ll, .NULL, it.current_index, it.data⟩)
    | .node _ (.node d n) =>
      (true, some ⟨it.ll, .node d n, (it.current_index + 1) % 2 ^ 64, d⟩)

/-- A run of `linked_list_insert_end` calls on the same list, one per value, in
order: the return values of the calls, and the list and process at the end. -/
def insert_end_calls : process → Option linked_list → List Nat → List Bool × Option linked_list × process
  | p, ll, [] => ([], ll, p)
  | p, ll, v :: vs =>
    let r := linked_list_insert_end p ll v
    let rest := insert_end_calls r.proc r.ll vs
    (r.ret :: rest.1, rest.2)

/-- The iterator behind `iter` after `k` successive `linked_list_iterate`
calls on it. -/
def iterate_times (iter : Option iterator) : Nat → Option iterator
  | 0 => iter
  | k + 1 => (linked_list_iterate (iterate_times iter k)).2

/-- The iterator `it` is in the Positioned state at index `i` of the list `l`,
not modified since: it references `l`, its current node is the node `i` links
after the head, and its index field is `i`. -/
def positioned_at (it : iterator) (l : linked_list) (i : Nat) : Prop :=
  it.ll = some l ∧ it.current_node = sub_chain l.head i ∧ it.current_node ≠ .NULL ∧
    it.current_index = i

instance (it : iterator) (l : linked_list) (i : Nat) : Decidable (positioned_at it l i) :=
  inferInstanceAs (Decidable (it.ll = some l ∧ it.current_node = sub_chain l.head i ∧
    it.current_node ≠ .NULL ∧ it.current_index = i))

/-! ## Sample inputs for the concrete instances -/

/-- A process with both capabilities registered and an allocator that always
returns memory. -/
def sample_process : process :=
  ⟨some (fun _ => true), some (), 0, []⟩

/-- A process whose allocator returns memory on its even-numbered calls only. -/
def flaky_process : process :=
  ⟨some (fun k => k % 2 == 0), some (), 0, []⟩

/-- The list `[10, 20, 30]`. -/
def sample_list : linked_list :=
  ⟨.node 10 (.node 20 (.node 30 .NULL))⟩

/-- The list `[7, 5, 7]`, with a repeated value. -/
def repeat_list : linked_list :=
  ⟨.node 7 (.node 5 (.node 7 .NULL))⟩

/-- An iterator on the second node of `[10, 20, 30]`. -/
def sample_iterator : iterator :=
  ⟨some sample_list, .node 20 (.node 30 .NULL), 1, 20⟩

/-- An exhausted iterator over `[10, 20, 30]`, as left by a failed advance from
the last node. -/
def spent_iterator : iterator :=
  ⟨some sample_list, .NULL, 2, 30⟩

/-! ## Lemmas on chains -/

theorem elements_sub_chain (c : node_ptr) (k : Nat) :
    elements (sub_chain c k) = (elements c).drop k := by
  induction c generalizing k with
  | NULL => simp [sub_chain, elements]
  | node d n ih =>
    cases k with
    | zero => simp [sub_chain]
    | succ k => simp [sub_chain, elements, ih]

theorem elements_store_next (c : node_ptr) (k : Nat) (v : node_ptr)
    (hk : k < (elements c).length) :
    elements (store_next c k v) = (elements c).take (k + 1) ++ elements v := by
  induction c generalizing k with
  | NULL => simp [elements] at hk
  | node d n ih =>
    cases k with
    | zero => simp [store_next, elements]
    | succ k =>
      simp only [elements, List.length_cons, Nat.add_lt_add_iff_right] at hk
      simp [store_next, elements, ih k hk]

theorem seek_loop_eq (bound : Nat) (c : node_ptr) (i : Nat) :
    seek_loop bound c i
      = (sub_chain c (bound - i), i + min (bound - i) (elements c).length) := by
  induction c generalizing i with
  | NULL => simp [seek_loop, sub_chain, elements]
  | node d n ih =>
    by_cases h : i < bound
    · obtain ⟨k, hk⟩ : ∃ k, bound - i = k + 1 := ⟨bound - i - 1, by omega⟩
      have hk2 : bound - (i + 1) = k := by omega
      simp only [seek_loop, h, if_true, ih, hk, hk2, sub_chain, elements, List.length_cons]
      congr 1
      omega
    · have h0 : bound - i = 0 := by omega
      simp [seek_loop, h, h0, sub_chain]

theorem tail_loop_eq (d : Nat) (n : node_ptr) (depth : Nat) :
    tail_loop (.node d n) depth = depth + (elements n).length := by
  induction n generalizing d depth with
  | NULL => simp [tail_loop, elements]
  | node d2 n2 ih =>
    simp only [tail_loop, ih, elements, List.length_cons]
    omega

theorem size_loop_eq (c : node_ptr) (size : Nat) (hs : size < 2 ^ 64) :
    size_loop c size = (size + (elements c).length) % 2 ^ 64 := by
  induction c generalizing size with
  | NULL => simp only [size_loop, elements, List.length_nil, Nat.add_zero, Nat.mod_eq_of_lt hs]
  | node d n ih =>
    simp only [size_loop, ih _ (Nat.mod_lt _ (by decide)), elements, List.length_cons,
      Nat.mod_add_mod]
    congr 1
    omega

theorem linked_list_size_mod (l : linked_list) :
    linked_list_size (some l) = (elements l.head).length % 2 ^ 64 := by
  simp only [linked_list_size, size_loop_eq l.head 0 (by decide), Nat.zero_add]

theorem linked_list_size_eq (l : linked_list) (hl : addressable l) :
    linked_list_size (some l) = (elements l.head).length := by
  unfold addressable SIZE_MAX at hl
  rw [linked_list_size_mod]
  exact Nat.mod_eq_of_lt (by omega)

theorem sub_chain_null (c : node_ptr) (k : Nat) (hk : (elements c).length ≤ k) :
    sub_chain c k = .NULL := by
  induction c generalizing k with
  | NULL => simp [sub_chain]
  | node d n ih =>
    cases k with
    | zero => simp [elements] at hk
    | succ k =>
      simp only [elements, List.length_cons, Nat.add_le_add_iff_right] at hk
      simp [sub_chain, ih k hk]

theorem sub_chain_node (c : node_ptr) (k : Nat) (hk : k < (elements c).length) :
    ∃ d n, sub_chain c k = .node d n ∧ (elements c)[k]? = some d ∧
      elements n = (elements c).drop (k + 1) := by
  induction c generalizing k with
  | NULL => simp [elements] at hk
  | node d n ih =>
    cases k with
    | zero => exact ⟨d, n, by simp [sub_chain], by simp [elements], by simp [elements]⟩
    | succ k =>
      simp only [elements, List.length_cons, Nat.add_lt_add_iff_right] at hk
      obtain ⟨d2, n2, h1, h2, h3⟩ := ih k hk
      exact ⟨d2, n2, by simp [sub_chain, h1], by simp [elements, h2], by simp [elements, h3]⟩

/-! ## Insertion at an index -/

/-- Claim C1.  For a present list `l`, a value `v` and an index `i` with
`i ≤ size(l)`, when the allocate capability is registered and its call returns
memory, `linked_list_insert(l, i, v)` returns true and leaves the first `i`
elements of `l`, then `v`, then the remaining elements of `l` in their order;
so `v` is at index `i` and the size has grown by exactly one. -/
theorem insert_splices_at_index (p : process) (m : malloc_fn) (l : linked_list) (i v : Nat)
    (hl : addressable l) (hi : i ≤ linked_list_size (some l))
    (hm : p.malloc_fptr = some m) (hok : m p.malloc_calls = true) :
    ∃ l2 : linked_list,
      (linked_list_insert p (some l) i v).ret = true ∧
      (linked_list_insert p (some l) i v).ll = some l2 ∧
      elements l2.head = (elements l.head).take i ++ v :: (elements l.head).drop i ∧
      (elements l2.head)[i]? = some v ∧
      linked_list_size (some l2) = linked_list_size (some l) + 1 := by
  rw [linked_list_size_eq l hl] at hi
  have hseq : ∃ l2 : linked_list,
      (linked_list_insert p (some l) i v).ret = true ∧
      (linked_list_insert p (some l) i v).ll = some l2 ∧
      elements l2.head = (elements l.head).take i ++ v :: (elements l.head).drop i := by
    by_cases h0 : i = 0
    · subst h0
      refine ⟨⟨.node v l.head⟩, ?_, ?_, ?_⟩ <;>
        simp [linked_list_insert, linked_list_insert_front, hm, call_malloc, hok, elements]
    · have hlt : i - 1 < (elements l.head).length := by omega
      obtain ⟨d, n, h1, _, h3⟩ := sub_chain_node l.head (i - 1) hlt
      have hmin : min (i - 1) (elements l.head).length = i - 1 := by omega
      have hi1 : i - 1 + 1 = i := by omega
      refine ⟨⟨store_next l.head (i - 1) (.node v n)⟩, ?_, ?_, ?_⟩
      · simp [linked_list_insert, hm, h0, seek_loop_eq, h1, call_malloc, hok]
      · simp [linked_list_insert, hm, h0, seek_loop_eq, h1, call_malloc, hok, hmin]
      · simp [elements_store_next l.head (i - 1) _ hlt, elements, h3, hi1]
  obtain ⟨l2, hret, hll, hel⟩ := hseq
  have hlen : (elements l2.head).length = (elements l.head).length + 1 := by
    simp [hel]
    omega
  have hl2 : linked_list_size (some l2) = (elements l.head).length + 1 := by
    unfold addressable SIZE_MAX at hl
    rw [linked_list_size_mod, hlen]
    exact Nat.mod_eq_of_lt (by omega)
  refine ⟨l2, hret, hll, hel, ?_, ?_⟩
  · rw [hel, List.getElem?_append_right (by simp [Nat.min_eq_left hi])]
    simp [Nat.min_eq_left hi]
  · rw [hl2, linked_list_size_eq l hl]

/-- Instance of C1: inserting 99 at index 2 of `[10, 20, 30]`. -/
theorem insert_splices_at_index_witness :
    addressable sample_list ∧ 2 ≤ linked_list_size (some sample_list) ∧
    sample_process.malloc_fptr = some (fun _ => true) ∧
    ∃ l2 : linked_list,
      (linked_list_insert sample_process (some sample_list) 2 99).ret = true ∧
      (linked_list_insert sample_process (some sample_list) 2 99).ll = some l2 ∧
      elements l2.head
        = (elements sample_list.head).take 2 ++ 99 :: (elements sample_list.head).drop 2 ∧
      (elements l2.head)[2]? = some 99 ∧
      linked_list_size (some l2) = linked_list_size (some sample_list) + 1 :=
  ⟨by decide, by decide, rfl,
    insert_splices_at_index sample_process (fun _ => true) sample_list 2 99
      (by decide) (by decide) rfl rfl⟩

theorem elements_eq_nil (c : node_ptr) (h : elements c = []) : c = .NULL := by
  cases c with
  | NULL => rfl
  | node d n => simp [elements] at h

/-- Claim C2.  For a present list `l` and a value `v`,
`linked_list_insert(l, size(l), v)` does exactly what
`linked_list_insert_end(l, v)` does, whatever the state of the allocator
binding: same return flag, same list afterwards (the empty list included), same
process state; and the flag is true whenever the allocate capability is
registered and its call returns memory. -/
theorem insert_at_size_is_insert_end (p : process) (l : linked_list) (v : Nat)
    (hl : addressable l) :
    linked_list_insert p (some l) (linked_list_size (some l)) v
        = linked_list_insert_end p (some l) v ∧
      (linked_list_insert p (some l) (linked_list_size (some l)) v).ret
        = (linked_list_insert_end p (some l) v).ret ∧
      (linked_list_insert p (some l) (linked_list_size (some l)) v).ll
        = (linked_list_insert_end p (some l) v).ll ∧
      (∀ m : malloc_fn, p.malloc_fptr = some m → m p.malloc_calls = true →
        (linked_list_insert p (some l) (linked_list_size (some l)) v).ret = true ∧
        (linked_list_insert_end p (some l) v).ret = true) := by
  have heq : linked_list_insert p (some l) (linked_list_size (some l)) v
      = linked_list_insert_end p (some l) v := by
    rw [linked_list_size_eq l hl]
    cases hp : p.malloc_fptr with
    | none => simp [linked_list_insert, linked_list_insert_end, hp]
    | some m =>
      cases hh : l.head with
      | NULL =>
        cases hc : m p.malloc_calls <;>
          simp [linked_list_insert, linked_list_insert_front, linked_list_insert_end, hp, hh,
            elements, call_malloc, hc]
      | node d n =>
        have hlt : (elements n).length < (elements (node_ptr.node d n)).length := by
          simp [elements]
        obtain ⟨d2, n2, h1, _, h3⟩ := sub_chain_node (.node d n) (elements n).length hlt
        have hn2 : n2 = .NULL := elements_eq_nil n2 (by simp [h3, elements])
        subst hn2
        cases hc : m p.malloc_calls <;>
          simp [linked_list_insert, linked_list_insert_end, hp, hh, elements, call_malloc, hc,
            seek_loop_eq, h1, tail_loop_eq]
  refine ⟨heq, by rw [heq], by rw [heq], ?_⟩
  intro m hm hok
  rw [heq]
  cases hh : l.head <;>
    simp [linked_list_insert_end, hm, call_malloc, hok, hh]

/-- Instance of C2 on `[10, 20, 30]` with an allocator that returns memory. -/
theorem insert_at_size_is_insert_end_witness :
    addressable sample_list ∧
    linked_list_insert sample_process (some sample_list) (linked_list_size (some sample_list)) 5
      = linked_list_insert_end sample_process (some sample_list) 5 :=
  ⟨by decide, (insert_at_size_is_insert_end sample_process sample_list 5 (by decide)).1⟩

/-- Claim C3.  For a present list `l`, a value `v` and an index `i` with
`i > size(l)`, `linked_list_insert(l, i, v)` returns false and leaves the list,
hence its size, unchanged (no allocation is attempted either). -/
theorem insert_beyond_size_fails (p : process) (l : linked_list) (i v : Nat)
    (hl : addressable l) (hi : linked_list_size (some l) < i) :
    (linked_list_insert p (some l) i v).ret = false ∧
      (linked_list_insert p (some l) i v).ll = some l ∧
      linked_list_size (linked_list_insert p (some l) i v).ll = linked_list_size (some l) ∧
      (linked_list_insert p (some l) i v).proc = p := by
  rw [linked_list_size_eq l hl] at hi
  have h0 : i ≠ 0 := by omega
  have heq : linked_list_insert p (some l) i v = ⟨false, some l, p⟩ := by
    cases hp : p.malloc_fptr with
    | none => simp [linked_list_insert, hp]
    | some m =>
      simp [linked_list_insert, hp, h0, seek_loop_eq,
        sub_chain_null l.head (i - 1) (by omega)]
  simp [heq]

/-- Instance of C3: index `size + 1 = 4` on `[10, 20, 30]`. -/
theorem insert_beyond_size_fails_witness :
    addressable sample_list ∧ linked_list_size (some sample_list) < 4 ∧
    (linked_list_insert sample_process (some sample_list) 4 99).ret = false ∧
    (linked_list_insert sample_process (some sample_list) 4 99).ll = some sample_list ∧
    linked_list_size (linked_list_insert sample_process (some sample_list) 4 99).ll
      = linked_list_size (some sample_list) ∧
    (linked_list_insert sample_process (some sample_list) 4 99).proc = sample_process :=
  ⟨by decide, by decide,
    insert_beyond_size_fails sample_process sample_list 4 99 (by decide) (by decide)⟩

theorem sub_chain_step (c : node_ptr) (k d : Nat) (n : node_ptr)
    (h : sub_chain c k = .node d n) : sub_chain c (k + 1) = n := by
  induction c generalizing k with
  | NULL => simp [sub_chain] at h
  | node d0 n0 ih =>
    cases k with
    | zero =>
      simp only [sub_chain, node_ptr.node.injEq] at h
      obtain ⟨_, rfl⟩ := h
      cases n0 <;> simp [sub_chain]
    | succ k =>
      simp only [sub_chain] at h
      simp only [sub_chain]
      exact ih k h

/-! ## Removal at an index -/

theorem remove_in_range (p : process) (f : free_fn) (l : linked_list) (i : Nat)
    (hf : p.free_fptr = some f) (hi : i < (elements l.head).length) :
    ∃ (l2 : linked_list) (d : Nat),
      linked_list_remove p (some l) i = ⟨true, some l2, call_free p (.node d)⟩ ∧
      elements l2.head = (elements l.head).eraseIdx i ∧
      (elements l.head)[i]? = some d ∧
      (i = 0 → l2.head = sub_chain l.head 1) := by
  cases hh : l.head with
  | NULL => simp [hh, elements] at hi
  | node d n =>
    by_cases h0 : i = 0
    · subst h0
      refine ⟨⟨n⟩, d, ?_, ?_, ?_, ?_⟩
      · simp [linked_list_remove, hf, hh]
      · simp [elements]
      · simp [elements]
      · intro _
        cases n <;> simp [sub_chain]
    · rw [hh] at hi
      have hlt : i - 1 < (elements (node_ptr.node d n)).length := by omega
      have hi1 : i - 1 + 1 = i := by omega
      obtain ⟨d1, n1, h1, _, _⟩ := sub_chain_node (.node d n) (i - 1) hlt
      obtain ⟨d2, n2, h5, h6, h7⟩ := sub_chain_node (.node d n) i hi
      have hn1 : n1 = .node d2 n2 := by
        have h := sub_chain_step _ _ _ _ h1
        rw [hi1, h5] at h
        exact h.symm
      subst hn1
      have hmin : min (i - 1) (elements (node_ptr.node d n)).length = i - 1 := by omega
      refine ⟨⟨store_next (.node d n) (i - 1) n2⟩, d2, ?_, ?_, h6, ?_⟩
      · simp [linked_list_remove, hf, hh, h0, seek_loop_eq, h1, hmin]
      · simp [elements_store_next (.node d n) (i - 1) _ hlt, hi1, h7,
          List.eraseIdx_eq_take_drop_succ]
      · intro h
        exact absurd h h0

theorem remove_out_of_range (p : process) (l : linked_list) (i : Nat)
    (hi : (elements l.head).length ≤ i) :
    linked_list_remove p (some l) i = ⟨false, some l, p⟩ := by
  cases hf : p.free_fptr with
  | none => simp [linked_list_remove, hf]
  | some f =>
    cases hh : l.head with
    | NULL => simp [linked_list_remove, hf, hh]
    | node d n =>
      rw [hh] at hi
      have h0 : i ≠ 0 := by
        simp [elements] at hi
        omega
      by_cases hlt : i - 1 < (elements (node_ptr.node d n)).length
      · obtain ⟨d1, n1, h1, _, h3⟩ := sub_chain_node (.node d n) (i - 1) hlt
        have hn1 : n1 = .NULL :=
          elements_eq_nil n1 (by rw [h3]; exact List.drop_eq_nil_of_le (by omega))
        subst hn1
        simp [linked_list_remove, hf, hh, h0, seek_loop_eq, h1]
      · simp [linked_list_remove, hf, hh, h0, seek_loop_eq,
          sub_chain_null (.node d n) (i - 1) (by omega)]

/-- Claim C4.  For a present list `l` and an index `i`, with the deallocate
capability registered, `linked_list_remove(l, i)` returns true exactly when
`i < size(l)`; when it returns true the size afterwards is one less than
before, and when it returns false the size is unchanged. -/
theorem remove_succeeds_iff_in_range (p : process) (f : free_fn) (l : linked_list) (i : Nat)
    (hl : addressable l) (hf : p.free_fptr = some f) :
    ((linked_list_remove p (some l) i).ret = true ↔ i < linked_list_size (some l)) ∧
      ((linked_list_remove p (some l) i).ret = true →
        linked_list_size (linked_list_remove p (some l) i).ll + 1
          = linked_list_size (some l)) ∧
      ((linked_list_remove p (some l) i).ret = false →
        linked_list_size (linked_list_remove p (some l) i).ll
          = linked_list_size (some l)) := by
  rw [linked_list_size_eq l hl]
  by_cases hi : i < (elements l.head).length
  · obtain ⟨l2, d, heq, hel, _, _⟩ := remove_in_range p f l i hf hi
    have hlen : (elements l2.head).length + 1 = (elements l.head).length := by
      rw [hel, List.length_eraseIdx_of_lt hi]
      omega
    have hl2 : addressable l2 := by
      unfold addressable at hl ⊢
      omega
    simp [heq, hi, linked_list_size_eq l2 hl2, hlen]
  · have heq := remove_out_of_range p l i (by omega)
    simp [heq, hi, linked_list_size_eq l hl]

/-- Instance of C4: index 1 of `[10, 20, 30]` is in range. -/
theorem remove_succeeds_iff_in_range_witness :
    addressable sample_list ∧ sample_process.free_fptr = some () ∧
    ((linked_list_remove sample_process (some sample_list) 1).ret = true
      ↔ 1 < linked_list_size (some sample_list)) :=
  ⟨by decide, rfl,
    (remove_succeeds_iff_in_range sample_process () sample_list 1 (by decide) rfl).1⟩

/-- Claim C5.  For a present list `l` and an index `i < size(l)`, with the
deallocate capability registered, `linked_list_remove(l, i)` returns true and
leaves the old sequence with the element at position `i` deleted: elements
before `i` keep their index, elements after `i` move down by one; for `i = 0`
the new head is what the old head's `next` was (`NULL` for a one-node list). -/
theorem remove_deletes_the_element (p : process) (f : free_fn) (l : linked_list) (i : Nat)
    (hl : addressable l) (hf : p.free_fptr = some f) (hi : i < linked_list_size (some l)) :
    ∃ l2 : linked_list,
      (linked_list_remove p (some l) i).ret = true ∧
      (linked_list_remove p (some l) i).ll = some l2 ∧
      elements l2.head = (elements l.head).eraseIdx i ∧
      (∀ j, j < i → (elements l2.head)[j]? = (elements l.head)[j]?) ∧
      (∀ j, i ≤ j → (elements l2.head)[j]? = (elements l.head)[j + 1]?) ∧
      (i = 0 → ∀ d n, l.head = .node d n → l2.head = n) := by
  rw [linked_list_size_eq l hl] at hi
  obtain ⟨l2, d, heq, hel, _, hhead⟩ := remove_in_range p f l i hf hi
  refine ⟨l2, by rw [heq], by rw [heq], hel, ?_, ?_, ?_⟩
  · intro j hj
    rw [hel, List.getElem?_eraseIdx_of_lt _ _ _ hj]
  · intro j hj
    rw [hel, List.getElem?_eraseIdx_of_ge _ _ _ hj]
  · intro h0 d0 n0 hh
    rw [hhead h0, hh]
    cases n0 <;> simp [sub_chain]

/-- Instance of C5: removing index 1 of `[10, 20, 30]`. -/
theorem remove_deletes_the_element_witness :
    addressable sample_list ∧ sample_process.free_fptr = some () ∧
    1 < linked_list_size (some sample_list) ∧
    ∃ l2 : linked_list,
      (linked_list_remove sample_process (some sample_list) 1).ret = true ∧
      (linked_list_remove sample_process (some sample_list) 1).ll = some l2 ∧
      elements l2.head = (elements sample_list.head).eraseIdx 1 ∧
      (∀ j, j < 1 → (elements l2.head)[j]? = (elements sample_list.head)[j]?) ∧
      (∀ j, 1 ≤ j → (elements l2.head)[j]? = (elements sample_list.head)[j + 1]?) ∧
      (1 = 0 → ∀ d n, sample_list.head = .node d n → l2.head = n) :=
  ⟨by decide, rfl, by decide,
    remove_deletes_the_element sample_process () sample_list 1 (by decide) rfl (by decide)⟩

/-! ## Search -/

theorem find_loop_spec (v : Nat) (c : node_ptr) (s : Nat)
    (h : s + (elements c).length ≤ SIZE_MAX) :
    (v ∉ elements c ∧ find_loop v c s = SIZE_MAX) ∨
      ∃ k, find_loop v c s = s + k ∧ k < (elements c).length ∧
        (elements c)[k]? = some v ∧ ∀ j, j < k → (elements c)[j]? ≠ some v := by
  induction c generalizing s with
  | NULL => left; simp [elements, find_loop]
  | node d n ih =>
    by_cases hd : d = v
    · right
      exact ⟨0, by simp [find_loop, hd], by simp [elements], by simp [elements, hd],
        fun j hj => absurd hj (Nat.not_lt_zero j)⟩
    · simp only [elements, List.length_cons] at h
      have hs : (s + 1) % 2 ^ 64 = s + 1 := by
        unfold SIZE_MAX at h
        exact Nat.mod_eq_of_lt (by omega)
      rcases ih (s + 1) (by omega) with ⟨hn, hf⟩ | ⟨k, hf, hk, hget, hmin⟩
      · left
        refine ⟨?_, by simp only [find_loop, hd, if_false, hs, hf]⟩
        simp only [elements, List.mem_cons, not_or]
        exact ⟨fun h => hd h.symm, hn⟩
      · right
        refine ⟨k + 1, ?_, by simp [elements, hk], by simp [elements, hget], ?_⟩
        · simp only [find_loop, hd, if_false, hs, hf]
          omega
        · intro j hj
          cases j with
          | zero =>
            simp only [elements, List.getElem?_cons_zero, ne_eq, Option.some.injEq]
            exact hd
          | succ j =>
            simp only [elements, List.getElem?_cons_succ]
            exact hmin j (by omega)

/-- Claim C6.  `linked_list_find(l, v)` returns the zero-based index of the
first node whose data equals `v`: a returned value `i` other than the sentinel
is the index of an element equal to `v` with no element equal to `v` below it;
and the sentinel `SIZE_MAX` is returned exactly when `l` is absent or `v` does
not occur in `l`. -/
theorem find_returns_first_index (ll : Option linked_list) (v : Nat)
    (hl : ∀ l, ll = some l → addressable l) :
    (linked_list_find ll v ≠ SIZE_MAX →
        ∃ l, ll = some l ∧ (elements l.head)[linked_list_find ll v]? = some v ∧
          ∀ j, j < linked_list_find ll v → (elements l.head)[j]? ≠ some v) ∧
      (linked_list_find ll v = SIZE_MAX ↔
        ll = none ∨ ∃ l, ll = some l ∧ v ∉ elements l.head) := by
  cases ll with
  | none => simp [linked_list_find]
  | some l =>
    have ha : (elements l.head).length < SIZE_MAX := hl l rfl
    rcases find_loop_spec v l.head 0 (by omega) with ⟨hn, hf⟩ | ⟨k, hf, hk, hget, hmin⟩
    · simp [linked_list_find, hf, hn]
    · have hmem : v ∈ elements l.head := List.getElem?_mem hget
      have hne : k ≠ SIZE_MAX := by omega
      simp only [Nat.zero_add] at hf
      have hfind : linked_list_find (some l) v = k := by simp [linked_list_find, hf]
      rw [hfind]
      refine ⟨fun _ => ⟨l, rfl, hget, hmin⟩, ?_⟩
      constructor
      · intro h
        exact absurd h hne
      · rintro (h | ⟨l2, h2, hnot⟩)
        · cases h
        · cases h2
          exact absurd hmem hnot

/-- Instance of C6: the first 7 of `[7, 5, 7]` is at index 0, and 5 at index 1. -/
theorem find_returns_first_index_witness :
    (∀ l, some repeat_list = some l → addressable l) ∧
    (linked_list_find (some repeat_list) 7 ≠ SIZE_MAX →
      ∃ l, some repeat_list = some l ∧
        (elements l.head)[linked_list_find (some repeat_list) 7]? = some 7 ∧
        ∀ j, j < linked_list_find (some repeat_list) 7 → (elements l.head)[j]? ≠ some 7) :=
  ⟨fun l h => by cases h; decide,
    (find_returns_first_index (some repeat_list) 7 (fun l h => by cases h; decide)).1⟩

/-! ## Insertion at the end -/

theorem insert_end_ok (p : process) (m : malloc_fn) (l : linked_list) (v : Nat)
    (hm : p.malloc_fptr = some m) (hok : m p.malloc_calls = true) :
    ∃ l2 : linked_list,
      linked_list_insert_end p (some l) v = ⟨true, some l2, (call_malloc p m).2⟩ ∧
      elements l2.head = elements l.head ++ [v] ∧
      (l.head = .NULL → l2.head = .node v .NULL) := by
  cases hh : l.head with
  | NULL =>
    exact ⟨⟨.node v .NULL⟩, by simp [linked_list_insert_end, hm, call_malloc, hok, hh],
      by simp [elements], fun _ => rfl⟩
  | node d n =>
    refine ⟨⟨store_next (.node d n) (elements n).length (.node v .NULL)⟩, ?_, ?_, ?_⟩
    · simp [linked_list_insert_end, hm, call_malloc, hok, hh, tail_loop_eq]
    · rw [elements_store_next _ _ _ (by simp [elements])]
      simp [elements]
    · intro h
      cases h

theorem insert_end_failed_alloc (p : process) (m : malloc_fn) (l : linked_list) (v : Nat)
    (hm : p.malloc_fptr = some m) (hok : m p.malloc_calls = false) :
    linked_list_insert_end p (some l) v = ⟨false, some l, (call_malloc p m).2⟩ := by
  simp [linked_list_insert_end, hm, call_malloc, hok]

theorem insert_end_unregistered (p : process) (ll : Option linked_list) (v : Nat)
    (hm : p.malloc_fptr = none) :
    linked_list_insert_end p ll v = ⟨false, ll, p⟩ := by
  cases ll <;> simp [linked_list_insert_end, hm]

/-- Claim C7.  For a present list `l` and a value `v`, when the allocate
capability is registered and its call returns memory,
`linked_list_insert_end(l, v)` returns true and leaves the old sequence
followed by `v` (the new node is the head when `l` was empty); the elements
already present keep their indices. -/
theorem insert_end_appends (p : process) (m : malloc_fn) (l : linked_list) (v : Nat)
    (hm : p.malloc_fptr = some m) (hok : m p.malloc_calls = true) :
    ∃ l2 : linked_list,
      (linked_list_insert_end p (some l) v).ret = true ∧
      (linked_list_insert_end p (some l) v).ll = some l2 ∧
      elements l2.head = elements l.head ++ [v] ∧
      (l.head = .NULL → l2.head = .node v .NULL) ∧
      (∀ j, j < (elements l.head).length →
        (elements l2.head)[j]? = (elements l.head)[j]?) := by
  obtain ⟨l2, heq, hel, hhead⟩ := insert_end_ok p m l v hm hok
  refine ⟨l2, by rw [heq], by rw [heq], hel, hhead, ?_⟩
  intro j hj
  rw [hel, List.getElem?_append_left hj]

/-- Instance of C7: appending 40 to `[10, 20, 30]`. -/
theorem insert_end_appends_witness :
    sample_process.malloc_fptr = some (fun _ => true) ∧
    ∃ l2 : linked_list,
      (linked_list_insert_end sample_process (some sample_list) 40).ret = true ∧
      (linked_list_insert_end sample_process (some sample_list) 40).ll = some l2 ∧
      elements l2.head = elements sample_list.head ++ [40] ∧
      (sample_list.head = .NULL → l2.head = .node 40 .NULL) ∧
      (∀ j, j < (elements sample_list.head).length →
        (elements l2.head)[j]? = (elements sample_list.head)[j]?) :=
  ⟨rfl, insert_end_appends sample_process (fun _ => true) sample_list 40 rfl rfl⟩

theorem insert_end_calls_length (vs : List Nat) (p : process) (l : linked_list) :
    ∃ l2 : linked_list,
      (insert_end_calls p (some l) vs).2.1 = some l2 ∧
      (elements l2.head).length
        = (elements l.head).length + (insert_end_calls p (some l) vs).1.count true := by
  induction vs generalizing p l with
  | nil => exact ⟨l, by simp [insert_end_calls]⟩
  | cons v vs ih =>
    cases hm : p.malloc_fptr with
    | none =>
      obtain ⟨l2, h1, h2⟩ := ih p l
      refine ⟨l2, ?_, ?_⟩
      · simp [insert_end_calls, insert_end_unregistered p (some l) v hm, h1]
      · simp [insert_end_calls, insert_end_unregistered p (some l) v hm, h2]
    | some m =>
      cases hok : m p.malloc_calls with
      | false =>
        obtain ⟨l2, h1, h2⟩ := ih (call_malloc p m).2 l
        refine ⟨l2, ?_, ?_⟩
        · simp [insert_end_calls, insert_end_failed_alloc p m l v hm hok, h1]
        · simp [insert_end_calls, insert_end_failed_alloc p m l v hm hok, h2]
      | true =>
        obtain ⟨l1, heq, hel, _⟩ := insert_end_ok p m l v hm hok
        obtain ⟨l2, h1, h2⟩ := ih (call_malloc p m).2 l1
        refine ⟨l2, ?_, ?_⟩
        · simp [insert_end_calls, heq, h1]
        · simp [insert_end_calls, heq, h2, hel]
          omega

/-- Claim C8.  After any finite run of `linked_list_insert_end` calls on a
freshly created list, whichever of them succeed or fail, `linked_list_size` of
the list equals the number of calls that returned true (a number of nodes that
a `size_t` can hold). -/
theorem size_counts_successful_insert_end (p : process) (l : linked_list) (vs : List Nat)
    (hc : (linked_list_create p).ret = some l)
    (hn : (insert_end_calls (linked_list_create p).proc (some l) vs).1.count true ≤ SIZE_MAX) :
    linked_list_size (insert_end_calls (linked_list_create p).proc (some l) vs).2.1
      = (insert_end_calls (linked_list_create p).proc (some l) vs).1.count true := by
  have hempty : l.head = .NULL := by
    unfold linked_list_create at hc
    cases hm : p.malloc_fptr with
    | none => simp [hm] at hc
    | some m =>
      cases hok : m p.malloc_calls <;> simp [hm, call_malloc, hok] at hc
      rw [← hc]
  obtain ⟨l2, h1, h2⟩ := insert_end_calls_length vs (linked_list_create p).proc l
  rw [hempty] at h2
  simp only [elements, List.length_nil, Nat.zero_add] at h2
  unfold SIZE_MAX at hn
  rw [h1, linked_list_size_mod, h2]
  exact Nat.mod_eq_of_lt (by omega)

/-- Instance of C8: five calls with an allocator that fails every other time. -/
theorem size_counts_successful_insert_end_witness :
    (linked_list_create flaky_process).ret = some ⟨.NULL⟩ ∧
    (insert_end_calls (linked_list_create flaky_process).proc (some ⟨.NULL⟩)
      [4, 5, 6, 7, 8]).1 = [false, true, false, true, false] ∧
    linked_list_size (insert_end_calls (linked_list_create flaky_process).proc (some ⟨.NULL⟩)
      [4, 5, 6, 7, 8]).2.1
      = (insert_end_calls (linked_list_create flaky_process).proc (some ⟨.NULL⟩)
        [4, 5, 6, 7, 8]).1.count true :=
  ⟨rfl, by decide,
    size_counts_successful_insert_end flaky_process ⟨.NULL⟩ [4, 5, 6, 7, 8] rfl (by decide)⟩

/-! ## Size -/

/-- Claim C9.  `linked_list_size` returns the sentinel `SIZE_MAX` (all 64 bits
set) for an absent list and the number of nodes of the chain for a present one;
a list just returned by a successful `linked_list_create` is empty and has size
0, which is not the sentinel. -/
theorem size_is_sentinel_or_node_count (p : process) (l : linked_list) :
    linked_list_size none = SIZE_MAX ∧
      (∀ k, k < 64 → SIZE_MAX.testBit k = true) ∧ SIZE_MAX < 2 ^ 64 ∧
      (addressable l → linked_list_size (some l) = (elements l.head).length) ∧
      ((linked_list_create p).ret = some l →
        l.head = .NULL ∧ elements l.head = [] ∧ linked_list_size (some l) = 0 ∧
          linked_list_size (some l) ≠ SIZE_MAX) := by
  refine ⟨rfl, by decide, by decide, linked_list_size_eq l, ?_⟩
  intro hc
  have hempty : l.head = .NULL := by
    unfold linked_list_create at hc
    cases hm : p.malloc_fptr with
    | none => simp [hm] at hc
    | some m =>
      cases hok : m p.malloc_calls <;> simp [hm, call_malloc, hok] at hc
      rw [← hc]
  refine ⟨hempty, by simp [hempty, elements], by simp [linked_list_size, hempty, size_loop], ?_⟩
  simp [linked_list_size, hempty, size_loop, SIZE_MAX]

/-- Instance of C9: `[10, 20, 30]` has size 3, and a list created with a working
allocator has size 0. -/
theorem size_is_sentinel_or_node_count_witness :
    addressable sample_list ∧
    linked_list_size (some sample_list) = (elements sample_list.head).length ∧
    (linked_list_create sample_process).ret = some ⟨.NULL⟩ ∧
    linked_list_size (some ⟨.NULL⟩) = 0 :=
  ⟨by decide,
    (size_is_sentinel_or_node_count sample_process sample_list).2.2.2.1 (by decide),
    rfl,
    ((size_is_sentinel_or_node_count sample_process ⟨.NULL⟩).2.2.2.2 rfl).2.2.1⟩

/-! ## Front insertion then search -/

/-- Claim C10.  For a present list `l` and a value `v`, if
`linked_list_insert_front(l, v)` returns true then `linked_list_find(l, v)` on
the list it leaves returns 0, whatever `l` held before. -/
theorem find_after_insert_front (p : process) (l : linked_list) (v : Nat)
    (h : (linked_list_insert_front p (some l) v).ret = true) :
    linked_list_find (linked_list_insert_front p (some l) v).ll v = 0 := by
  cases hm : p.malloc_fptr with
  | none => simp [linked_list_insert_front, hm] at h
  | some m =>
    cases hok : m p.malloc_calls with
    | false => simp [linked_list_insert_front, hm, call_malloc, hok] at h
    | true => simp [linked_list_insert_front, hm, call_malloc, hok, linked_list_find, find_loop]

/-- Instance of C10: 7 put in front of `[7, 5, 7]`, which already holds it. -/
theorem find_after_insert_front_witness :
    (linked_list_insert_front sample_process (some repeat_list) 7).ret = true ∧
    linked_list_find (linked_list_insert_front sample_process (some repeat_list) 7).ll 7 = 0 :=
  ⟨rfl, find_after_insert_front sample_process repeat_list 7 rfl⟩

/-! ## Iterators -/

theorem positioned_in_range (it : iterator) (l : linked_list) (i : Nat)
    (hp : positioned_at it l i) : i < (elements l.head).length := by
  obtain ⟨_, hnode, hne, _⟩ := hp
  by_contra hge
  exact hne (by rw [hnode, sub_chain_null l.head i (by omega)])

theorem iterate_step (it : iterator) (l : linked_list) (i : Nat)
    (hl : addressable l) (hp : positioned_at it l i) :
    (i + 1 < (elements l.head).length →
        ∃ it2 : iterator, linked_list_iterate (some it) = (true, some it2) ∧
          positioned_at it2 l (i + 1) ∧ (elements l.head)[i + 1]? = some it2.data) ∧
      ((elements l.head).length ≤ i + 1 →
        linked_list_iterate (some it)
          = (false, some ⟨it.ll, .NULL, it.current_index, it.data⟩)) := by
  have hi := positioned_in_range it l i hp
  obtain ⟨hll, hnode, _, hidx⟩ := hp
  obtain ⟨d, n, h1, _, h3⟩ := sub_chain_node l.head i hi
  have hstep := sub_chain_step l.head i d n h1
  rw [h1] at hnode
  constructor
  · intro hlt
    obtain ⟨d2, n2, h5, h6, _⟩ := sub_chain_node l.head (i + 1) hlt
    rw [hstep] at h5
    have hwrap : (i + 1) % 2 ^ 64 = i + 1 := by
      unfold addressable SIZE_MAX at hl
      exact Nat.mod_eq_of_lt (by omega)
    refine ⟨⟨it.ll, .node d2 n2, i + 1, d2⟩, ?_, ?_, h6⟩
    · simp only [linked_list_iterate, hnode, h5, hidx, hwrap]
    · refine ⟨hll, ?_, by simp, rfl⟩
      rw [hstep, h5]
  · intro hge
    have hn : n = .NULL := elements_eq_nil n (by rw [h3]; exact List.drop_eq_nil_of_le hge)
    simp only [linked_list_iterate, hnode, hn]

theorem create_iterator_in_range (p : process) (m : malloc_fn) (l : linked_list) (i : Nat)
    (hm : p.malloc_fptr = some m) (hok : m p.malloc_calls = true)
    (hi : i < (elements l.head).length) :
    ∃ it : iterator,
      linked_list_create_iterator p (some l) i = ⟨some it, some l, (call_malloc p m).2⟩ ∧
      positioned_at it l i ∧ (elements l.head)[i]? = some it.data := by
  obtain ⟨d, n, h1, h2, _⟩ := sub_chain_node l.head i hi
  refine ⟨⟨some l, .node d n, i, d⟩, ?_, ⟨rfl, h1.symm, by simp, rfl⟩, h2⟩
  simp [linked_list_create_iterator, hm, seek_loop_eq, h1, call_malloc, hok]

theorem create_iterator_out_of_range (p : process) (l : linked_list) (i : Nat)
    (hi : (elements l.head).length ≤ i) :
    linked_list_create_iterator p (some l) i = ⟨none, some l, p⟩ := by
  cases hm : p.malloc_fptr with
  | none => simp [linked_list_create_iterator, hm]
  | some m =>
    simp [linked_list_create_iterator, hm, seek_loop_eq, sub_chain_null l.head i hi]

/-- Claim C11.  For a present list `l` and an index `i`, with the allocate
capability registered and its call returning memory,
`linked_list_create_iterator(l, i)` returns an iterator exactly when
`i < size(l)`; the iterator it returns references `l`, stands on the node at
index `i`, has `current_index = i`, and caches the element at index `i`. -/
theorem create_iterator_iff_in_range (p : process) (m : malloc_fn) (l : linked_list) (i : Nat)
    (hl : addressable l) (hm : p.malloc_fptr = some m) (hok : m p.malloc_calls = true) :
    ((linked_list_create_iterator p (some l) i).ret.isSome = true
        ↔ i < linked_list_size (some l)) ∧
      (∀ it : iterator, (linked_list_create_iterator p (some l) i).ret = some it →
        it.ll = some l ∧ it.current_node = sub_chain l.head i ∧ it.current_node ≠ .NULL ∧
          it.current_index = i ∧ (elements l.head)[i]? = some it.data) := by
  rw [linked_list_size_eq l hl]
  by_cases hi : i < (elements l.head).length
  · obtain ⟨it, heq, hpos, hdata⟩ := create_iterator_in_range p m l i hm hok hi
    obtain ⟨h1, h2, h3, h4⟩ := hpos
    rw [heq]
    refine ⟨by simp [hi], ?_⟩
    intro it2 hit2
    simp only [Option.some.injEq] at hit2
    subst hit2
    exact ⟨h1, h2, h3, h4, hdata⟩
  · rw [create_iterator_out_of_range p l i (by omega)]
    simp [hi]

/-- Instance of C11: an iterator at index 1 of `[10, 20, 30]`. -/
theorem create_iterator_iff_in_range_witness :
    addressable sample_list ∧ sample_process.malloc_fptr = some (fun _ => true) ∧
    ((linked_list_create_iterator sample_process (some sample_list) 1).ret.isSome = true
      ↔ 1 < linked_list_size (some sample_list)) ∧
    (linked_list_create_iterator sample_process (some sample_list) 1).ret
      = some sample_iterator :=
  ⟨by decide, rfl,
    (create_iterator_iff_in_range sample_process (fun _ => true) sample_list 1
      (by decide) rfl rfl).1,
    rfl⟩

/-- Claim C12.  For a non-empty present list `l`, with the allocate capability
registered and its call returning memory, creating an iterator at index
`size(l) - 1` succeeds, and the first `linked_list_iterate` call on it returns
false and leaves it exhausted (current node absent). -/
theorem iterator_at_last_node_exhausts (p : process) (m : malloc_fn) (l : linked_list)
    (hl : addressable l) (hne : l.head ≠ .NULL)
    (hm : p.malloc_fptr = some m) (hok : m p.malloc_calls = true) :
    ∃ it : iterator,
      (linked_list_create_iterator p (some l) (linked_list_size (some l) - 1)).ret = some it ∧
      (linked_list_iterate (some it)).1 = false ∧
      ∃ it2 : iterator, (linked_list_iterate (some it)).2 = some it2 ∧
        it2.current_node = .NULL := by
  rw [linked_list_size_eq l hl]
  have hpos : 0 < (elements l.head).length := by
    cases hh : l.head with
    | NULL => exact absurd hh hne
    | node d n => simp [elements]
  obtain ⟨it, heq, hp, _⟩ :=
    create_iterator_in_range p m l ((elements l.head).length - 1) hm hok (by omega)
  have hstep := (iterate_step it l _ hl hp).2 (by omega)
  exact ⟨it, by rw [heq], by rw [hstep], _, by rw [hstep], rfl⟩

/-- Instance of C12 on `[10, 20, 30]`. -/
theorem iterator_at_last_node_exhausts_witness :
    addressable sample_list ∧ sample_list.head ≠ .NULL ∧
    ∃ it : iterator,
      (linked_list_create_iterator sample_process (some sample_list)
        (linked_list_size (some sample_list) - 1)).ret = some it ∧
      (linked_list_iterate (some it)).1 = false ∧
      ∃ it2 : iterator, (linked_list_iterate (some it)).2 = some it2 ∧
        it2.current_node = .NULL :=
  ⟨by decide, by decide,
    iterator_at_last_node_exhausts sample_process (fun _ => true) sample_list
      (by decide) (by decide) rfl rfl⟩

/-- Claim C13.  For an iterator positioned at index `i` of an unmodified list
`l`, `linked_list_iterate` returns true exactly when `i + 1 < size(l)`; when it
returns true the iterator stands on the successor node, its `current_index` is
`i + 1` and its cached data is the element of `l` at index `i + 1`. -/
theorem iterate_advances_iff_successor (it : iterator) (l : linked_list) (i : Nat)
    (hl : addressable l) (hp : positioned_at it l i) :
    ((linked_list_iterate (some it)).1 = true ↔ i + 1 < linked_list_size (some l)) ∧
      ((linked_list_iterate (some it)).1 = true →
        ∃ it2 : iterator, (linked_list_iterate (some it)).2 = some it2 ∧
          it2.ll = some l ∧ it2.current_node = sub_chain l.head (i + 1) ∧
          it2.current_node ≠ .NULL ∧ it2.current_index = i + 1 ∧
          (elements l.head)[i + 1]? = some it2.data) := by
  rw [linked_list_size_eq l hl]
  obtain ⟨hadv, hend⟩ := iterate_step it l i hl hp
  by_cases hi : i + 1 < (elements l.head).length
  · obtain ⟨it2, heq, ⟨h1, h2, h3, h4⟩, hdata⟩ := hadv hi
    rw [heq]
    exact ⟨by simp [hi], fun _ => ⟨it2, rfl, h1, h2, h3, h4, hdata⟩⟩
  · rw [hend (by omega)]
    simp [hi]

/-- Instance of C13: advancing from index 1 of `[10, 20, 30]`. -/
theorem iterate_advances_iff_successor_witness :
    addressable sample_list ∧ positioned_at sample_iterator sample_list 1 ∧
    ((linked_list_iterate (some sample_iterator)).1 = true
      ↔ 1 + 1 < linked_list_size (some sample_list)) ∧
    (linked_list_iterate (some sample_iterator)).1 = true :=
  ⟨by decide, by decide,
    (iterate_advances_iff_successor sample_iterator sample_list 1 (by decide) (by decide)).1,
    rfl⟩

theorem iterate_after_failure (iter : Option iterator)
    (h : (linked_list_iterate iter).1 = false) :
    linked_list_iterate (linked_list_iterate iter).2 = (false, (linked_list_iterate iter).2) ∧
      ∀ it : iterator, (linked_list_iterate iter).2 = some it → it.current_node = .NULL := by
  cases iter with
  | none => simp [linked_list_iterate]
  | some it =>
    cases hc : it.current_node with
    | NULL =>
      refine ⟨by simp [linked_list_iterate, hc], ?_⟩
      intro it2 h2
      simp only [linked_list_iterate, hc, Option.some.injEq] at h2
      rw [← h2, hc]
    | node d n =>
      cases n with
      | NULL =>
        refine ⟨by simp [linked_list_iterate, hc], ?_⟩
        intro it2 h2
        simp only [linked_list_iterate, hc, Option.some.injEq] at h2
        rw [← h2]
      | node d2 n2 => simp [linked_list_iterate, hc] at h

theorem iterate_times_fixed (s : Option iterator)
    (h : linked_list_iterate s = (false, s)) (k : Nat) : iterate_times s k = s := by
  induction k with
  | zero => rfl
  | succ k ih => simp only [iterate_times, ih, h]

/-- Claim C14.  The Exhausted state is terminal: once a `linked_list_iterate`
call on an iterator has returned false, every later call on it returns false
too and leaves the iterator as that first failed call left it, with its current
node absent; no number of further advances makes it Positioned again. -/
theorem exhausted_is_terminal (iter : Option iterator) (k : Nat)
    (h : (linked_list_iterate iter).1 = false) :
    (linked_list_iterate (iterate_times (linked_list_iterate iter).2 k)).1 = false ∧
      (linked_list_iterate (iterate_times (linked_list_iterate iter).2 k)).2
        = (linked_list_iterate iter).2 ∧
      iterate_times (linked_list_iterate iter).2 k = (linked_list_iterate iter).2 ∧
      ∀ it : iterator, iterate_times (linked_list_iterate iter).2 k = some it →
        it.current_node = .NULL ∧ ∀ l i, ¬ positioned_at it l i := by
  obtain ⟨hfix, hnull⟩ := iterate_after_failure iter h
  have hk := iterate_times_fixed _ hfix k
  rw [hk, hfix]
  refine ⟨rfl, rfl, rfl, ?_⟩
  intro it hit
  refine ⟨hnull it hit, ?_⟩
  rintro l i ⟨_, _, hne, _⟩
  exact hne (hnull it hit)

/-- Instance of C14: the iterator on the last node of `[10, 20, 30]`, advanced
once (which fails) and then three more times. -/
theorem exhausted_is_terminal_witness :
    (linked_list_iterate (some ⟨some sample_list, .node 30 .NULL, 2, 30⟩)).1 = false ∧
    (linked_list_iterate (iterate_times
      (linked_list_iterate (some ⟨some sample_list, .node 30 .NULL, 2, 30⟩)).2 3)).1 = false ∧
    iterate_times (linked_list_iterate (some ⟨some sample_list, .node 30 .NULL, 2, 30⟩)).2 3
      = some spent_iterator :=
  ⟨rfl,
    (exhausted_is_terminal (some ⟨some sample_list, .node 30 .NULL, 2, 30⟩) 3 rfl).1,
    rfl⟩

/-! ## Round trip -/

/-- Claim C15.  From a freshly created list, with both capabilities registered
and every allocation succeeding, `insert_front(5)`, `insert_end(10)`,
`insert_end(15)` give `[5, 10, 15]`; then `find(10)` returns 1; then
`remove(0)` succeeds and leaves `[10, 15]`; then the size is 2. -/
theorem round_trip (p : process) (m : malloc_fn) (f : free_fn)
    (hm : p.malloc_fptr = some m) (hall : ∀ k, m k = true) (hf : p.free_fptr = some f) :
    let r0 := linked_list_create p
    let r1 := linked_list_insert_front r0.proc r0.ret 5
    let r2 := linked_list_insert_end r1.proc r1.ll 10
    let r3 := linked_list_insert_end r2.proc r2.ll 15
    let r4 := linked_list_remove r3.proc r3.ll 0
    r0.ret = some ⟨.NULL⟩ ∧ r1.ret = true ∧ r2.ret = true ∧ r3.ret = true ∧
      r3.ll.map (fun l => elements l.head) = some [5, 10, 15] ∧
      linked_list_find r3.ll 10 = 1 ∧
      r4.ret = true ∧ r4.ll.map (fun l => elements l.head) = some [10, 15] ∧
      linked_list_size r4.ll = 2 := by
  simp [linked_list_create, linked_list_insert_front, linked_list_insert_end,
    linked_list_remove, linked_list_find, linked_list_size, call_malloc, call_free, hm, hall,
    hf, store_next, tail_loop, elements, find_loop, size_loop]

/-- Instance of C15 with an allocator that always returns memory. -/
theorem round_trip_witness :
    sample_process.malloc_fptr = some (fun _ => true) ∧ sample_process.free_fptr = some () ∧
    (let r0 := linked_list_create sample_process
     let r1 := linked_list_insert_front r0.proc r0.ret 5
     let r2 := linked_list_insert_end r1.proc r1.ll 10
     let r3 := linked_list_insert_end r2.proc r2.ll 15
     let r4 := linked_list_remove r3.proc r3.ll 0
     r0.ret = some ⟨.NULL⟩ ∧ r1.ret = true ∧ r2.ret = true ∧ r3.ret = true ∧
       r3.ll.map (fun l => elements l.head) = some [5, 10, 15] ∧
       linked_list_find r3.ll 10 = 1 ∧
       r4.ret = true ∧ r4.ll.map (fun l => elements l.head) = some [10, 15] ∧
       linked_list_size r4.ll = 2) :=
  ⟨rfl, rfl, round_trip sample_process (fun _ => true) () rfl (fun _ => rfl) rfl⟩

/-! ## Unregistered capabilities -/

theorem insert_unregistered (p : process) (ll : Option linked_list) (i v : Nat)
    (hm : p.malloc_fptr = none) :
    linked_list_insert p ll i v = ⟨false, ll, p⟩ := by
  cases ll <;> simp [linked_list_insert, hm]

theorem insert_front_unregistered (p : process) (ll : Option linked_list) (v : Nat)
    (hm : p.malloc_fptr = none) :
    linked_list_insert_front p ll v = ⟨false, ll, p⟩ := by
  cases ll <;> simp [linked_list_insert_front, hm]

theorem create_iterator_unregistered (p : process) (ll : Option linked_list) (i : Nat)
    (hm : p.malloc_fptr = none) :
    linked_list_create_iterator p ll i = ⟨none, ll, p⟩ := by
  cases ll <;> simp [linked_list_create_iterator, hm]

theorem delete_unregistered (p : process) (ll : Option linked_list)
    (hf : p.free_fptr = none) :
    linked_list_delete p ll = ⟨false, ll, p⟩ := by
  cases ll <;> simp [linked_list_delete, hf]

theorem remove_unregistered (p : process) (ll : Option linked_list) (i : Nat)
    (hf : p.free_fptr = none) :
    linked_list_remove p ll i = ⟨false, ll, p⟩ := by
  cases ll <;> simp [linked_list_remove, hf]

theorem delete_iterator_unregistered (p : process) (iter : Option iterator)
    (hf : p.free_fptr = none) :
    linked_list_delete_iterator p iter = (false, p) := by
  cases iter <;> simp [linked_list_delete_iterator, hf]

/-- Claim C16.  Every lifecycle operation fails when the capability it needs
was never registered, for every argument: with allocate unregistered,
`linked_list_create` and `linked_list_create_iterator` return absent and the
three insert operations return false; with deallocate unregistered,
`linked_list_delete`, `linked_list_remove` and `linked_list_delete_iterator`
return false; each time the list is left as it was. -/
theorem unregistered_capability_fails (p : process) (ll : Option linked_list)
    (iter : Option iterator) (i v : Nat) :
    (p.malloc_fptr = none →
        (linked_list_create p).ret = none ∧
        (linked_list_create_iterator p ll i).ret = none ∧
        (linked_list_create_iterator p ll i).ll = ll ∧
        (linked_list_insert_end p ll v).ret = false ∧
        (linked_list_insert_end p ll v).ll = ll ∧
        (linked_list_insert_front p ll v).ret = false ∧
        (linked_list_insert_front p ll v).ll = ll ∧
        (linked_list_insert p ll i v).ret = false ∧
        (linked_list_insert p ll i v).ll = ll) ∧
      (p.free_fptr = none →
        (linked_list_delete p ll).ret = false ∧
        (linked_list_delete p ll).ll = ll ∧
        (linked_list_remove p ll i).ret = false ∧
        (linked_list_remove p ll i).ll = ll ∧
        (linked_list_delete_iterator p iter).1 = false) := by
  constructor
  · intro hm
    rw [create_iterator_unregistered p ll i hm, insert_end_unregistered p ll v hm,
      insert_front_unregistered p ll v hm, insert_unregistered p ll i v hm]
    simp [linked_list_create, hm]
  · intro hf
    rw [delete_unregistered p ll hf, remove_unregistered p ll i hf,
      delete_iterator_unregistered p iter hf]
    simp

/-- Instance of C16 at process start, on `[10, 20, 30]`. -/
theorem unregistered_capability_fails_witness :
    process_start.malloc_fptr = none ∧ process_start.free_fptr = none ∧
    (linked_list_insert process_start (some sample_list) 1 99).ret = false ∧
    (linked_list_insert process_start (some sample_list) 1 99).ll = some sample_list ∧
    (linked_list_remove process_start (some sample_list) 1).ret = false ∧
    (linked_list_remove process_start (some sample_list) 1).ll = some sample_list :=
  ⟨rfl, rfl,
    ((unregistered_capability_fails process_start (some sample_list)
      (some sample_iterator) 1 99).1 rfl).2.2.2.2.2.2.2.1,
    ((unregistered_capability_fails process_start (some sample_list)
      (some sample_iterator) 1 99).1 rfl).2.2.2.2.2.2.2.2,
    ((unregistered_capability_fails process_start (some sample_list)
      (some sample_iterator) 1 99).2 rfl).2.2.1,
    ((unregistered_capability_fails process_start (some sample_list)
      (some sample_iterator) 1 99).2 rfl).2.2.2.1⟩

/-- Counterexample to C17 as stated: at process start, with neither capability
registered, `linked_list_size` of a present empty list is 0 and not the
sentinel, `linked_list_find` of 10 in the present list `[10, 20, 30]` is 0 and
not the sentinel, and `linked_list_iterate` on a present iterator standing on
the second node of `[10, 20, 30]` returns true. -/
theorem queries_ignore_registration :
    process_start.malloc_fptr = none ∧ process_start.free_fptr = none ∧
    linked_list_size (some ⟨.NULL⟩) = 0 ∧ linked_list_size (some ⟨.NULL⟩) ≠ SIZE_MAX ∧
    linked_list_find (some sample_list) 10 = 0 ∧
    linked_list_find (some sample_list) 10 ≠ SIZE_MAX ∧
    (linked_list_iterate (some sample_iterator)).1 = true :=
  ⟨rfl, rfl, by decide, by decide, by decide, by decide, by decide⟩

/-- Claim C17, amended.  In a state where neither capability is registered,
`create`, `delete`, `insert_end`, `insert_front`, `insert`, `remove`,
`create_iterator` and `delete_iterator` return their failure indicator for
every list, iterator, index and value argument; `size`, `find` and `iterate`,
which use neither capability, return their failure indicator for an absent
list or iterator, which is what `create` and `create_iterator` hand out in that
state. -/
theorem before_registration_fails (p : process) (ll : Option linked_list)
    (iter : Option iterator) (i v : Nat)
    (hm : p.malloc_fptr = none) (hf : p.free_fptr = none) :
    (linked_list_create p).ret = none ∧
      (linked_list_delete p ll).ret = false ∧
      (linked_list_insert_end p ll v).ret = false ∧
      (linked_list_insert_front p ll v).ret = false ∧
      (linked_list_insert p ll i v).ret = false ∧
      (linked_list_remove p ll i).ret = false ∧
      (linked_list_create_iterator p ll i).ret = none ∧
      (linked_list_delete_iterator p iter).1 = false ∧
      linked_list_size none = SIZE_MAX ∧
      linked_list_find none v = SIZE_MAX ∧
      (linked_list_iterate none).1 = false ∧
      linked_list_size (linked_list_create p).ret = SIZE_MAX ∧
      linked_list_find (linked_list_create p).ret v = SIZE_MAX ∧
      (linked_list_iterate (linked_list_create_iterator p ll i).ret).1 = false := by
  rw [create_iterator_unregistered p ll i hm, insert_end_unregistered p ll v hm,
    insert_front_unregistered p ll v hm, insert_unregistered p ll i v hm,
    delete_unregistered p ll hf, remove_unregistered p ll i hf,
    delete_iterator_unregistered p iter hf]
  simp [linked_list_create, hm, linked_list_size, linked_list_find, linked_list_iterate]

/-- Instance of the amended C17 at process start. -/
theorem before_registration_fails_witness :
    process_start.malloc_fptr = none ∧ process_start.free_fptr = none ∧
    (linked_list_create process_start).ret = none ∧
    linked_list_size (linked_list_create process_start).ret = SIZE_MAX :=
  ⟨rfl, rfl,
    (before_registration_fails process_start (some sample_list) (some sample_iterator) 1 99
      rfl rfl).1,
    (before_registration_fails process_start (some sample_list) (some sample_iterator) 1 99
      rfl rfl).2.2.2.2.2.2.2.2.2.2.2.1⟩

/-! ## Teardown -/

theorem delete_loop_eq (c : node_ptr) (p : process) :
    delete_loop c p
      = ⟨p.malloc_fptr, p.free_fptr, p.malloc_calls,
          p.freed ++ (elements c).map freed_object.node⟩ := by
  induction c generalizing p with
  | NULL => simp [delete_loop, elements]
  | node d n ih => simp [delete_loop, ih, call_free, elements]

/-- Claim C18.  For a present list with `N` nodes and the deallocate capability
registered, `linked_list_delete` returns true and calls the capability exactly
`N + 1` times: on the `N` nodes, one call each in chain order (the `k`-th call
is given the `k`-th node), and then on the list header.  It returns false
exactly when the list is absent or the capability unregistered, and then it
makes no call. -/
theorem delete_frees_nodes_then_header (p : process) (ll : Option linked_list) :
    (∀ (l : linked_list) (f : free_fn), ll = some l → p.free_fptr = some f →
        (linked_list_delete p ll).ret = true ∧
        (linked_list_delete p ll).proc.freed
          = p.freed ++ (elements l.head).map freed_object.node ++ [freed_object.linked_list] ∧
        (linked_list_delete p ll).proc.freed.length
          = p.freed.length + ((elements l.head).length + 1)) ∧
      ((linked_list_delete p ll).ret = false ↔ ll = none ∨ p.free_fptr = none) ∧
      ((linked_list_delete p ll).ret = false →
        (linked_list_delete p ll).proc.freed = p.freed) := by
  refine ⟨?_, ?_, ?_⟩
  · intro l f hl hf
    subst hl
    simp [linked_list_delete, hf, delete_loop_eq, call_free]
  · cases ll with
    | none => simp [linked_list_delete]
    | some l =>
      cases hf : p.free_fptr <;> simp [linked_list_delete, hf]
  · cases ll with
    | none => simp [linked_list_delete]
    | some l =>
      cases hf : p.free_fptr <;> simp [linked_list_delete, hf]

/-- Instance of C18: deleting `[10, 20, 30]` makes four calls. -/
theorem delete_frees_nodes_then_header_witness :
    sample_process.free_fptr = some () ∧
    (linked_list_delete sample_process (some sample_list)).ret = true ∧
    (linked_list_delete sample_process (some sample_list)).proc.freed
      = sample_process.freed ++ (elements sample_list.head).map freed_object.node
        ++ [freed_object.linked_list] ∧
    (linked_list_delete sample_process (some sample_list)).proc.freed.length
      = sample_process.freed.length + ((elements sample_list.head).length + 1) :=
  ⟨rfl,
    (delete_frees_nodes_then_header sample_process (some sample_list)).1 sample_list () rfl rfl⟩

/-! ## Allocation failure -/

/-- Claim C19.  When the allocate capability is registered but its call
reports failure, `linked_list_create` and `linked_list_create_iterator` return
absent, and `linked_list_insert_end`, `linked_list_insert_front` and
`linked_list_insert` return false and leave the list exactly as it was; none of
them calls the capability a second time. -/
theorem allocation_failure_passes_through (p : process) (m : malloc_fn)
    (ll : Option linked_list) (i v : Nat)
    (hm : p.malloc_fptr = some m) (hfail : m p.malloc_calls = false) :
    ((linked_list_create p).ret = none ∧
        (linked_list_create p).proc.malloc_calls = p.malloc_calls + 1) ∧
      ((linked_list_create_iterator p ll i).ret = none ∧
        (linked_list_create_iterator p ll i).ll = ll ∧
        (linked_list_create_iterator p ll i).proc.malloc_calls ≤ p.malloc_calls + 1) ∧
      ((linked_list_insert_end p ll v).ret = false ∧
        (linked_list_insert_end p ll v).ll = ll ∧
        (linked_list_insert_end p ll v).proc.malloc_calls ≤ p.malloc_calls + 1) ∧
      ((linked_list_insert_front p ll v).ret = false ∧
        (linked_list_insert_front p ll v).ll = ll ∧
        (linked_list_insert_front p ll v).proc.malloc_calls ≤ p.malloc_calls + 1) ∧
      ((linked_list_insert p ll i v).ret = false ∧
        (linked_list_insert p ll i v).ll = ll ∧
        (linked_list_insert p ll i v).proc.malloc_calls ≤ p.malloc_calls + 1) := by
  have hfront : (linked_list_insert_front p ll v).ret = false ∧
      (linked_list_insert_front p ll v).ll = ll ∧
      (linked_list_insert_front p ll v).proc.malloc_calls ≤ p.malloc_calls + 1 := by
    cases ll <;> simp [linked_list_insert_front, hm, call_malloc, hfail]
  refine ⟨?_, ?_, ?_, hfront, ?_⟩
  · simp [linked_list_create, hm, call_malloc, hfail]
  · cases ll with
    | none => simp [linked_list_create_iterator]
    | some l =>
      cases hs : sub_chain l.head i <;>
        simp [linked_list_create_iterator, hm, seek_loop_eq, hs, call_malloc, hfail]
  · cases ll <;> simp [linked_list_insert_end, hm, call_malloc, hfail]
  · cases ll with
    | none => simp [linked_list_insert]
    | some l =>
      by_cases h0 : i = 0
      · subst h0
        simpa [linked_list_insert, hm] using hfront
      · cases hs : sub_chain l.head (i - 1) <;>
          simp [linked_list_insert, hm, h0, seek_loop_eq, hs, call_malloc, hfail]

/-- Instance of C19: the second call of the flaky allocator fails. -/
theorem allocation_failure_passes_through_witness :
    (linked_list_create flaky_process).proc.malloc_fptr = some (fun k => k % 2 == 0) ∧
    (linked_list_insert (linked_list_create flaky_process).proc (some sample_list) 1 99).ret
      = false ∧
    (linked_list_insert (linked_list_create flaky_process).proc (some sample_list) 1 99).ll
      = some sample_list :=
  ⟨rfl,
    (allocation_failure_passes_through (linked_list_create flaky_process).proc
      (fun k => k % 2 == 0) (some sample_list) 1 99 rfl rfl).2.2.2.2.1,
    (allocation_failure_passes_through (linked_list_create flaky_process).proc
      (fun k => k % 2 == 0) (some sample_list) 1 99 rfl rfl).2.2.2.2.2.1⟩

/-! ## Traversal -/

theorem iterate_times_positioned (it : iterator) (l : linked_list) (i : Nat)
    (hl : addressable l) (hp : positioned_at it l i)
    (hd : (elements l.head)[i]? = some it.data) (k : Nat)
    (hk : i + k < (elements l.head).length) :
    ∃ itk : iterator, iterate_times (some it) k = some itk ∧
      positioned_at itk l (i + k) ∧ (elements l.head)[i + k]? = some itk.data := by
  induction k with
  | zero => exact ⟨it, rfl, hp, hd⟩
  | succ k ih =>
    obtain ⟨itk, hrun, hpk, _⟩ := ih (by omega)
    obtain ⟨it2, hstep, hp2, hd2⟩ := (iterate_step itk l (i + k) hl hpk).1 (by omega)
    exact ⟨it2, by simp only [iterate_times, hrun, hstep], hp2, hd2⟩

/-- Claim C20.  An iterator walks the rest of the list in order and leaves the
list alone: for a present list `l` of size `n ≥ 1` and an index `i < n`, on the
iterator created at `i`, the first `n - 1 - i` calls of `linked_list_iterate`
return true and the next one returns false; after `k` successful calls
(`0 ≤ k ≤ n - 1 - i`) its `current_index` is `i + k` and its cached data is the
element of `l` at index `i + k`; and the list is as it was. -/
theorem iterator_traverses_rest (p : process) (m : malloc_fn) (l : linked_list) (i : Nat)
    (hl : addressable l) (hm : p.malloc_fptr = some m) (hok : m p.malloc_calls = true)
    (hi : i < linked_list_size (some l)) :
    ∃ it : iterator,
      (linked_list_create_iterator p (some l) i).ret = some it ∧
      (linked_list_create_iterator p (some l) i).ll = some l ∧
      (∀ k, k < linked_list_size (some l) - 1 - i →
        (linked_list_iterate (iterate_times (some it) k)).1 = true) ∧
      (linked_list_iterate (iterate_times (some it) (linked_list_size (some l) - 1 - i))).1
        = false ∧
      (∀ k, k ≤ linked_list_size (some l) - 1 - i →
        ∃ itk : iterator, iterate_times (some it) k = some itk ∧
          itk.current_index = i + k ∧ (elements l.head)[i + k]? = some itk.data ∧
          itk.current_node = sub_chain l.head (i + k) ∧ itk.ll = some l) := by
  rw [linked_list_size_eq l hl] at hi ⊢
  obtain ⟨it, heq, hp, hd⟩ := create_iterator_in_range p m l i hm hok hi
  refine ⟨it, by rw [heq], by rw [heq], ?_, ?_, ?_⟩
  · intro k hk
    obtain ⟨itk, hrun, hpk, _⟩ := iterate_times_positioned it l i hl hp hd k (by omega)
    obtain ⟨it2, hstep, _, _⟩ := (iterate_step itk l (i + k) hl hpk).1 (by omega)
    rw [hrun, hstep]
  · obtain ⟨itk, hrun, hpk, _⟩ :=
      iterate_times_positioned it l i hl hp hd ((elements l.head).length - 1 - i) (by omega)
    rw [hrun, (iterate_step itk l _ hl hpk).2 (by omega)]
  · intro k hk
    obtain ⟨itk, hrun, ⟨h1, h2, _, h4⟩, hdk⟩ :=
      iterate_times_positioned it l i hl hp hd k (by omega)
    exact ⟨itk, hrun, h4, hdk, h2, h1⟩

/-- Instance of C20: from index 0 of `[10, 20, 30]`, two advances succeed and
the third fails. -/
theorem iterator_traverses_rest_witness :
    addressable sample_list ∧ 0 < linked_list_size (some sample_list) ∧
    ∃ it : iterator,
      (linked_list_create_iterator sample_process (some sample_list) 0).ret = some it ∧
      (linked_list_create_iterator sample_process (some sample_list) 0).ll
        = some sample_list ∧
      (∀ k, k < linked_list_size (some sample_list) - 1 - 0 →
        (linked_list_iterate (iterate_times (some it) k)).1 = true) ∧
      (linked_list_iterate
        (iterate_times (some it) (linked_list_size (some sample_list) - 1 - 0))).1 = false ∧
      (∀ k, k ≤ linked_list_size (some sample_list) - 1 - 0 →
        ∃ itk : iterator, iterate_times (some it) k = some itk ∧
          itk.current_index = 0 + k ∧ (elements sample_list.head)[0 + k]? = some itk.data ∧
          itk.current_node = sub_chain sample_list.head (0 + k) ∧
          itk.ll = some sample_list) :=
  ⟨by decide, by decide,
    iterator_traverses_rest sample_process (fun _ => true) sample_list 0
      (by decide) rfl rfl (by decide)⟩

end Level1
